import Mathlib

/-!
Verification of the temporal page-locator and detail-fetch pipeline of
`src/main.py` (class `Fetcher`).

Conventions of the shallow embedding:
* Python `datetime` values are Unix seconds as `Int`; `datetime.date()`
  truncation to day granularity is floor division by 86400 (`toDate`).
* Page ordinals and the binary-search cursors `start`/`end` are Python
  ints, embedded as `Int`.  Lean's `/` on `Int` with the positive literal
  divisor 2 is floor division, exactly Python's `//`.
* Network effects are abstracted as function parameters: the listing
  fetch `get_article_list` becomes `pages : Int → List Article`, and the
  body of `get_article_detail`'s `try:` block (navigate, wait, read the
  `newstext` element) becomes `detail : Article → Except Err String`.
* A Python statement that raises is a `.error` value of `Except Err`.
-/

namespace FFN

/-- The dataclass `Article` of src/main.py lines 19–24: `published` is the
parsed `post_publish_time` as Unix seconds. -/
structure Article where
  title : String
  url : String
  published : Int
  content : String
deriving Repr, DecidableEq

/-- Error kinds surfaced by the embedded operations.  `emptyPage` is the
failure of indexing `articles[0]` / `articles[-1]` on an empty list in
`get_date_range` (the spec's `EmptyPageError`); `pageNotFound` is the
`PageNotFound` exception of line 27; the detail-scope failures of
DrissionPage (`ElementNotFoundError`, `WaitTimeoutError`) are
`elementNotFound` and `timeout`. -/
inductive Err where
  | pageNotFound
  | emptyPage
  | elementNotFound
  | timeout
deriving Repr, DecidableEq

/-- Python `datetime.date()` at the embedding's Unix-second representation:
truncation to day granularity (floor, matching Python semantics). -/
def toDate (t : Int) : Int := Int.fdiv t 86400

/-- Lines 98–102, `get_date_range`: the pair
`(articles[0].published.date(), articles[-1].published.date())`.
Indexing an empty list raises, embedded as the `emptyPage` error. -/
def get_date_range (articles : List Article) : Except Err (Int × Int) :=
  match articles with
  | [] => .error .emptyPage
  | a :: rest => .ok (toDate a.published, toDate (rest.getLastD a).published)

/-- Lines 85–96, `get_article_detail`: the `try:` body (navigate to the
article url, wait for the `newstext` element, read its text) is the
abstracted effect `detail`; on success `article.content` is assigned the
text and the article returned, on any exception the bare `except:`
returns the article unchanged.  The function is total: it never
propagates an error. -/
def get_article_detail (detail : Article → Except Err String) (a : Article) : Article :=
  match detail a with
  | .ok c => { a with content := c }
  | .error _ => a

/-- The mutable `Fetcher` state relevant to total-page discovery
(line 37: `self.total_page = -1`). -/
structure FetcherState where
  total_page : Int
deriving Repr, DecidableEq

/-- Line 37 of `Fetcher.__init__`: the sentinel initial state. -/
def initState : FetcherState := ⟨-1⟩

/-- Lines 73–83, `get_total_page`: when `total_page` is the `-1` sentinel,
perform the navigation (abstracted as `probe`, yielding the number parsed
from the pagination indicator, or failing) and store the result; otherwise
do nothing.  The returned `Bool` records whether a navigation was
performed. -/
def get_total_page (probe : Except Err Nat) (st : FetcherState) :
    Except Err (FetcherState × Bool) :=
  if st.total_page = -1 then
    match probe with
    | .error e => .error e
    | .ok n => .ok ({ total_page := (n : Int) }, true)
  else
    .ok (st, false)

/-- Lines 110–122, the binary-search loop of `get_articles_with_date`,
with the page probe `get_date_range(get_article_list(mid))` abstracted as
the two functions `newest`/`oldest` giving the probed pair.  The source
binds the probed pair to `(earliest_date_mid, latest_date_mid)`; as the
spec notes (§9, naming inversion), the first component is semantically
the page's newest date and the second its oldest, and this embedding
names them so.  Returns the final `(start, end)` pair at loop exit. -/
def locate (newest oldest : Int → Int) (d : Int) (s e : Int) : Int × Int :=
  if s ≤ e then
    if d > newest ((s + e) / 2) then locate newest oldest d s ((s + e) / 2 - 1)
    else if d < oldest ((s + e) / 2) then locate newest oldest d ((s + e) / 2 + 1) e
    else locate newest oldest d s ((s + e) / 2 - 1)
  else (s, e)
termination_by (e + 1 - s).toNat
decreasing_by all_goals omega

/-- Instrumentation of the loop of lines 110–122: the list of page
ordinals probed (`mid` values passed to `get_article_list`), in order. -/
def locateProbes (newest oldest : Int → Int) (d : Int) (s e : Int) : List Int :=
  if s ≤ e then
    if d > newest ((s + e) / 2) then
      (s + e) / 2 :: locateProbes newest oldest d s ((s + e) / 2 - 1)
    else if d < oldest ((s + e) / 2) then
      (s + e) / 2 :: locateProbes newest oldest d ((s + e) / 2 + 1) e
    else (s + e) / 2 :: locateProbes newest oldest d s ((s + e) / 2 - 1)
  else []
termination_by (e + 1 - s).toNat
decreasing_by all_goals omega

/-- Instrumentation of the loop of lines 110–122: every `(start, end)`
state at which the loop condition is evaluated, the terminal state
included. -/
def locateStates (newest oldest : Int → Int) (d : Int) (s e : Int) : List (Int × Int) :=
  if s ≤ e then
    if d > newest ((s + e) / 2) then (s, e) :: locateStates newest oldest d s ((s + e) / 2 - 1)
    else if d < oldest ((s + e) / 2) then (s, e) :: locateStates newest oldest d ((s + e) / 2 + 1) e
    else (s, e) :: locateStates newest oldest d s ((s + e) / 2 - 1)
  else [(s, e)]
termination_by (e + 1 - s).toNat
decreasing_by all_goals omega

/-- Lines 110–122 again, now with the probe taken literally from the
source as `get_date_range (pages mid)` where `pages` embeds
`get_article_list`: a raised error (for example `emptyPage` on an empty
listing) propagates out of the loop. -/
def locateE (pages : Int → List Article) (d : Int) (s e : Int) :
    Except Err (Int × Int) :=
  if s ≤ e then
    match get_date_range (pages ((s + e) / 2)) with
    | .error er => .error er
    | .ok (earliest_date_mid, latest_date_mid) =>
      if d > earliest_date_mid then locateE pages d s ((s + e) / 2 - 1)
      else if d < latest_date_mid then locateE pages d ((s + e) / 2 + 1) e
      else locateE pages d s ((s + e) / 2 - 1)
  else .ok (s, e)
termination_by (e + 1 - s).toNat
decreasing_by all_goals omega

/-- Lines 127–128: the fetch window computed from the final
`(start, end)` of the search and `total_page`:
`start_page = start - 1 if start - 1 > 0 else 1` and
`end_page = end + 1 if end + 1 <= self.total_page else self.total_page`. -/
def fetch_window (se : Int × Int) (total_page : Int) : Int × Int :=
  (if se.1 - 1 > 0 then se.1 - 1 else 1,
   if se.2 + 1 ≤ total_page then se.2 + 1 else total_page)

/-- Python `range(a, b + 1)` over ints, as the list `[a, a+1, ..., b]`. -/
def intRange (a b : Int) : List Int :=
  (List.range (b + 1 - a).toNat).map (fun k => a + (k : Int))

/-- Modelled from the spec: the bounded worker pool behind
`executor.map(self.get_article_detail, ...)` of lines 131–136.  The
implementation (`concurrent.futures.ThreadPoolExecutor`) is not part of
this repository; §5 of the spec states the pool runs the submitted
callables concurrently and buffers/reorders completions to submission
order.  A `schedule` is the order in which workers finish, as a list of
submission indices; `poolCompletions` is the stream of `(index, result)`
pairs as workers complete, in schedule order. -/
def poolCompletions (g : Article → Article) (xs : List Article)
    (schedule : List Nat) : List (Nat × Article) :=
  schedule.filterMap (fun i => (xs.get? i).map (fun a => (i, g a)))

/-- Modelled from the spec: the reordering buffer of the pool (§5) —
completions are emitted to the output sequence keyed by submission
index, in submission order. -/
def poolOutput (n : Nat) (cs : List (Nat × Article)) : List Article :=
  (List.range n).filterMap (fun i => (cs.find? (fun c => c.1 == i)).map Prod.snd)

/-- Modelled from the spec: `executor.map(g, xs)` under finish order
`schedule` — completions collected as they arrive, then emitted in
submission order. -/
def poolMap (g : Article → Article) (xs : List Article) (schedule : List Nat) :
    List Article :=
  poolOutput xs.length (poolCompletions g xs schedule)

/-- Lines 104–136, `get_articles_with_date`, after total-page discovery
(line 105, modelled separately as `get_total_page`): run the binary
search from `(1, total_page)`, compute the fetch window of lines 127–128,
then for each page of the window in ascending order map the page's
articles through the detail pool.  `sched` gives each page's worker
finish order.  The generator is embedded as the list of all yielded
articles; an error raised during the search propagates. -/
def get_articles_with_date (pages : Int → List Article)
    (detail : Article → Except Err String) (sched : Int → List Nat)
    (total_page : Int) (d : Int) : Except Err (List Article) := do
  let se ← locateE pages d 1 total_page
  let w := fetch_window se total_page
  return (intRange w.1 w.2).flatMap
    (fun p => poolMap (get_article_detail detail) (pages p) (sched p))

/-! ## Lemmas about the binary search -/

/-- Final-cursor bounds: starting from any `(s, e)` with `s ≤ e + 1`, the
final `start` stays in `[s, e + 1]`. -/
theorem locate_fst_bounds (newest oldest : Int → Int) (d : Int) (s e : Int)
    (h : s ≤ e + 1) :
    s ≤ (locate newest oldest d s e).1 ∧ (locate newest oldest d s e).1 ≤ e + 1 := by
  rw [locate]
  split
  case isTrue hse =>
    split
    case isTrue h1 =>
      have ih := locate_fst_bounds newest oldest d s ((s + e) / 2 - 1) (by omega)
      omega
    case isFalse h1 =>
      split
      case isTrue h2 =>
        have ih := locate_fst_bounds newest oldest d ((s + e) / 2 + 1) e (by omega)
        omega
      case isFalse h2 =>
        have ih := locate_fst_bounds newest oldest d s ((s + e) / 2 - 1) (by omega)
        omega
  case isFalse hse => simp; omega
termination_by (e + 1 - s).toNat
decreasing_by all_goals omega

/-- Main loop invariant of the search of lines 110–122.  Say page `i` is
strictly-too-new for day `d` when `d ≤ newest i ∧ d < oldest i` (its whole
range lies strictly after `d`).  Under the reverse-chronological
monotonicity of the probed ranges, if every page left of `s` is
strictly-too-new and no page right of `e` is, the final `start` is exactly
the boundary: all pages before it are strictly-too-new and none from it on
is. -/
theorem locate_boundary (newest oldest : Int → Int) (d n : Int)
    (hN : ∀ i j, 1 ≤ i → i ≤ j → j ≤ n → newest j ≤ newest i)
    (hO : ∀ i j, 1 ≤ i → i ≤ j → j ≤ n → oldest j ≤ oldest i)
    (s e : Int) (hs : 1 ≤ s) (he : e ≤ n)
    (hL : ∀ i, 1 ≤ i → i < s → d ≤ newest i ∧ d < oldest i)
    (hR : ∀ i, e < i → i ≤ n → ¬(d ≤ newest i ∧ d < oldest i)) :
    (∀ i, 1 ≤ i → i < (locate newest oldest d s e).1 →
      d ≤ newest i ∧ d < oldest i) ∧
    (∀ i, (locate newest oldest d s e).1 ≤ i → i ≤ n →
      ¬(d ≤ newest i ∧ d < oldest i)) := by
  rw [locate]
  split
  case isTrue hse =>
    split
    case isTrue h1 =>
      -- d > newest mid: mid and everything right of it is not strictly-too-new
      refine locate_boundary newest oldest d n hN hO s ((s + e) / 2 - 1) hs (by omega) hL ?_
      intro i hi hin hM
      have hmono := hN ((s + e) / 2) i (by omega) (by omega) hin
      omega
    case isFalse h1 =>
      split
      case isTrue h2 =>
        -- d ≤ newest mid and d < oldest mid: mid and everything left is strictly-too-new
        refine locate_boundary newest oldest d n hN hO ((s + e) / 2 + 1) e (by omega) he ?_ hR
        intro i hi his
        by_cases hlt : i < s
        · exact hL i hi hlt
        · have hmN := hN i ((s + e) / 2) hi (by omega) (by omega)
          have hmO := hO i ((s + e) / 2) hi (by omega) (by omega)
          omega
      case isFalse h2 =>
        -- oldest mid ≤ d ≤ newest mid: mid and everything right is not strictly-too-new
        refine locate_boundary newest oldest d n hN hO s ((s + e) / 2 - 1) hs (by omega) hL ?_
        intro i hi hin hM
        have hmono := hO ((s + e) / 2) i (by omega) (by omega) hin
        omega
  case isFalse hse =>
    simp only
    exact ⟨fun i h1 h2 => hL i h1 h2, fun i h1 h2 => hR i (by omega) h2⟩
termination_by (e + 1 - s).toNat
decreasing_by all_goals omega

/-- C2: for every totalPages `n ≥ 1` and every assignment of page date
ranges `newest`/`oldest` satisfying the reverse-chronological
monotonicity precondition (ranges non-increasing in the page ordinal;
every page non-empty, so its range is well-formed: `oldest i ≤ newest i`),
the binary search started from `(1, n)` returns as its final `start` the
unique smallest page ordinal `p` with `oldest p ≤ d ≤ newest p` when some
page's range contains the target day `d`; when no page's range contains
`d`, it returns the insertion boundary: every page before the result is
strictly newer than `d`, and the result itself (when `≤ n`) is the first
page whose oldest day is `≤ d`. -/
theorem C2_locate_smallest_containing (newest oldest : Int → Int) (d n : Int)
    (hn : 1 ≤ n)
    (hN : ∀ i j, 1 ≤ i → i ≤ j → j ≤ n → newest j ≤ newest i)
    (hO : ∀ i j, 1 ≤ i → i ≤ j → j ≤ n → oldest j ≤ oldest i)
    (hWF : ∀ i, 1 ≤ i → i ≤ n → oldest i ≤ newest i) :
    (∀ q, 1 ≤ q → q ≤ n → oldest q ≤ d → d ≤ newest q →
      (locate newest oldest d 1 n).1 ≤ q ∧
      1 ≤ (locate newest oldest d 1 n).1 ∧
      (locate newest oldest d 1 n).1 ≤ n ∧
      oldest (locate newest oldest d 1 n).1 ≤ d ∧
      d ≤ newest (locate newest oldest d 1 n).1) ∧
    ((∀ q, 1 ≤ q → q ≤ n → ¬(oldest q ≤ d ∧ d ≤ newest q)) →
      1 ≤ (locate newest oldest d 1 n).1 ∧
      (locate newest oldest d 1 n).1 ≤ n + 1 ∧
      (∀ q, 1 ≤ q → q < (locate newest oldest d 1 n).1 → d < oldest q) ∧
      ((locate newest oldest d 1 n).1 ≤ n →
        oldest (locate newest oldest d 1 n).1 ≤ d)) := by
  obtain ⟨hlo, hhi⟩ := locate_fst_bounds newest oldest d 1 n (by omega)
  obtain ⟨hbefore, hafter⟩ := locate_boundary newest oldest d n hN hO 1 n
    (le_refl _) (le_refl _) (by omega) (by omega)
  set p := (locate newest oldest d 1 n).1 with hp
  constructor
  · intro q hq1 hqn hqo hqn'
    have hpq : p ≤ q := by
      by_contra hqp
      have := hbefore q hq1 (by omega)
      omega
    have hpn : p ≤ n := le_trans hpq hqn
    have hnp : ¬(d ≤ newest p ∧ d < oldest p) := hafter p (le_refl _) hpn
    have hdn : d ≤ newest p := by
      by_contra hd
      have := hN p q (by omega) hpq hqn
      omega
    have hdo : oldest p ≤ d := by
      by_contra hd
      exact hnp ⟨hdn, by omega⟩
    exact ⟨hpq, hlo, hpn, hdo, hdn⟩
  · intro hnone
    refine ⟨hlo, hhi, ?_, ?_⟩
    · intro q hq1 hqp
      exact (hbefore q hq1 hqp).2
    · intro hpn
      have hnp : ¬(d ≤ newest p ∧ d < oldest p) := hafter p (le_refl _) hpn
      have hwf := hWF p (by omega) hpn
      omega

/-- Witness for C2 at a concrete instance: five pages whose (degenerate)
ranges are page `i` covering exactly day `-i`; the target day `-3` is
contained only in page 3, and the search returns 3. -/
theorem C2_witness : (locate (fun i => -i) (fun i => -i) (-3) 1 5).1 = 3 := by
  have h := (C2_locate_smallest_containing (fun i => -i) (fun i => -i) (-3) 5
    (by norm_num)
    (fun i j h1 h2 h3 => by dsimp only; omega)
    (fun i j h1 h2 h3 => by dsimp only; omega)
    (fun i h1 h2 => le_refl _)).1 3
    (by norm_num) (by norm_num) (by norm_num) (by norm_num)
  omega

/-- On an already-empty interval the loop performs no probe. -/
theorem locateProbes_eq_nil (newest oldest : Int → Int) (d : Int) (s e : Int)
    (h : ¬ s ≤ e) : locateProbes newest oldest d s e = [] := by
  rw [locateProbes]
  simp [h]

/-- Every probed ordinal lies in the interval the probe was taken from. -/
theorem locateProbes_mem (newest oldest : Int → Int) (d : Int) (s e : Int) :
    ∀ x ∈ locateProbes newest oldest d s e, s ≤ x ∧ x ≤ e := by
  intro x hx
  rw [locateProbes] at hx
  split at hx
  case isTrue hse =>
    split at hx
    case isTrue h1 =>
      rcases List.mem_cons.mp hx with h | h
      · omega
      · have := locateProbes_mem newest oldest d s ((s + e) / 2 - 1) x h
        omega
    case isFalse h1 =>
      split at hx
      case isTrue h2 =>
        rcases List.mem_cons.mp hx with h | h
        · omega
        · have := locateProbes_mem newest oldest d ((s + e) / 2 + 1) e x h
          omega
      case isFalse h2 =>
        rcases List.mem_cons.mp hx with h | h
        · omega
        · have := locateProbes_mem newest oldest d s ((s + e) / 2 - 1) x h
          omega
  case isFalse hse => simp at hx
termination_by (e + 1 - s).toNat
decreasing_by all_goals omega

/-- No page ordinal is probed twice: the two sub-intervals both exclude
the probed midpoint, so the probe list has no duplicates. -/
theorem locateProbes_nodup (newest oldest : Int → Int) (d : Int) (s e : Int) :
    (locateProbes newest oldest d s e).Nodup := by
  rw [locateProbes]
  split
  case isTrue hse =>
    split
    case isTrue h1 =>
      refine List.nodup_cons.mpr ⟨fun hmem => ?_,
        locateProbes_nodup newest oldest d s ((s + e) / 2 - 1)⟩
      have := locateProbes_mem newest oldest d s ((s + e) / 2 - 1) _ hmem
      omega
    case isFalse h1 =>
      split
      case isTrue h2 =>
        refine List.nodup_cons.mpr ⟨fun hmem => ?_,
          locateProbes_nodup newest oldest d ((s + e) / 2 + 1) e⟩
        have := locateProbes_mem newest oldest d ((s + e) / 2 + 1) e _ hmem
        omega
      case isFalse h2 =>
        refine List.nodup_cons.mpr ⟨fun hmem => ?_,
          locateProbes_nodup newest oldest d s ((s + e) / 2 - 1)⟩
        have := locateProbes_mem newest oldest d s ((s + e) / 2 - 1) _ hmem
        omega
  case isFalse hse => simp
termination_by (e + 1 - s).toNat
decreasing_by all_goals omega

/-- The interval at least halves at each probe, so the number of probes
is logarithmic in the interval size. -/
theorem locateProbes_length (newest oldest : Int → Int) (d : Int) (s e : Int) :
    (locateProbes newest oldest d s e).length ≤
      Nat.log 2 (e + 1 - s).toNat + 1 := by
  rw [locateProbes]
  split
  case isTrue hse =>
    have step : ∀ s' e' : Int, (e' + 1 - s').toNat ≤ (e + 1 - s).toNat / 2 →
        (locateProbes newest oldest d s' e').length ≤
          Nat.log 2 (e' + 1 - s').toNat + 1 →
        (locateProbes newest oldest d s' e').length + 1 ≤
          Nat.log 2 (e + 1 - s).toNat + 1 := by
      intro s' e' hsub ih
      by_cases hc : s' ≤ e'
      · have hpos : 1 ≤ (e' + 1 - s').toNat := by omega
        have hbig : 2 ≤ (e + 1 - s).toNat := by omega
        have h1 : Nat.log 2 (e' + 1 - s').toNat ≤
            Nat.log 2 ((e + 1 - s).toNat / 2) := Nat.log_mono_right hsub
        have h2 : Nat.log 2 ((e + 1 - s).toNat / 2) =
            Nat.log 2 (e + 1 - s).toNat - 1 := Nat.log_div_base 2 _
        have h3 : 0 < Nat.log 2 (e + 1 - s).toNat :=
          Nat.log_pos (by norm_num) hbig
        omega
      · rw [locateProbes_eq_nil newest oldest d s' e' hc]
        simp
    split
    case isTrue h1 =>
      have := step s ((s + e) / 2 - 1) (by omega)
        (locateProbes_length newest oldest d s ((s + e) / 2 - 1))
      simpa using this
    case isFalse h1 =>
      split
      case isTrue h2 =>
        have := step ((s + e) / 2 + 1) e (by omega)
          (locateProbes_length newest oldest d ((s + e) / 2 + 1) e)
        simpa using this
      case isFalse h2 =>
        have := step s ((s + e) / 2 - 1) (by omega)
          (locateProbes_length newest oldest d s ((s + e) / 2 - 1))
        simpa using this
  case isFalse hse => simp
termination_by (e + 1 - s).toNat
decreasing_by all_goals omega

/-- C5: for every `totalPages = n ≥ 1` and every probe outcome
(arbitrary `newest`/`oldest` functions), the binary-search loop
terminates (the probe list is a well-defined finite list, by the
well-founded recursion on the shrinking interval), never fetches the same
page ordinal twice, and performs at most `log2 n + 1` listing-page
fetches. -/
theorem C5_probe_count (newest oldest : Int → Int) (d n : Int) (hn : 1 ≤ n) :
    (locateProbes newest oldest d 1 n).Nodup ∧
    (locateProbes newest oldest d 1 n).length ≤ Nat.log 2 n.toNat + 1 := by
  refine ⟨locateProbes_nodup newest oldest d 1 n, ?_⟩
  have h := locateProbes_length newest oldest d 1 n
  have he : ((n : Int) + 1 - 1).toNat = n.toNat := by omega
  rwa [he] at h

/-- Witness for C5 at `n = 5` with the concrete one-day-per-page ranges:
the probe list has no duplicates and at most `log2 5 + 1 = 3` probes. -/
theorem C5_witness :
    (locateProbes (fun i => -i) (fun i => -i) (-3) 1 5).Nodup ∧
    (locateProbes (fun i => -i) (fun i => -i) (-3) 1 5).length ≤
      Nat.log 2 (5 : Int).toNat + 1 :=
  C5_probe_count (fun i => -i) (fun i => -i) (-3) 5 (by norm_num)

/-- Bounds maintained by every loop state: starting from `(s, e)` with
`1 ≤ s` and `e ≤ n`, every state at which the loop condition is checked
(the terminal one included) satisfies `1 ≤ start` and `end ≤ n`. -/
theorem locateStates_bounds (newest oldest : Int → Int) (d n : Int) (s e : Int)
    (hs : 1 ≤ s) (he : e ≤ n) :
    ∀ p ∈ locateStates newest oldest d s e, 1 ≤ p.1 ∧ p.2 ≤ n := by
  intro p hp
  rw [locateStates] at hp
  split at hp
  case isTrue hse =>
    split at hp
    case isTrue h1 =>
      rcases List.mem_cons.mp hp with h | h
      · subst h; exact ⟨hs, he⟩
      · exact locateStates_bounds newest oldest d n s ((s + e) / 2 - 1) hs (by omega) p h
    case isFalse h1 =>
      split at hp
      case isTrue h2 =>
        rcases List.mem_cons.mp hp with h | h
        · subst h; exact ⟨hs, he⟩
        · exact locateStates_bounds newest oldest d n ((s + e) / 2 + 1) e (by omega) he p h
      case isFalse h2 =>
        rcases List.mem_cons.mp hp with h | h
        · subst h; exact ⟨hs, he⟩
        · exact locateStates_bounds newest oldest d n s ((s + e) / 2 - 1) hs (by omega) p h
  case isFalse hse =>
    simp only [List.mem_singleton] at hp
    subst hp
    exact ⟨hs, he⟩
termination_by (e + 1 - s).toNat
decreasing_by all_goals omega

/-- C6: for every `totalPages = n ≥ 1` and every sequence of probe
outcomes (arbitrary `newest`/`oldest`, no monotonicity assumed), the
search started from `(1, n)` maintains `1 ≤ start` and `end ≤ n` at every
loop state, and the boundary ordinal it produces on exit (the final
`start`) lies in `[1, n + 1]`, `n + 1` being the sentinel. -/
theorem C6_cursor_invariant (newest oldest : Int → Int) (d n : Int) (hn : 1 ≤ n) :
    (∀ p ∈ locateStates newest oldest d 1 n, 1 ≤ p.1 ∧ p.2 ≤ n) ∧
    1 ≤ (locate newest oldest d 1 n).1 ∧
    (locate newest oldest d 1 n).1 ≤ n + 1 :=
  ⟨locateStates_bounds newest oldest d n 1 n (le_refl _) (le_refl _),
   (locate_fst_bounds newest oldest d 1 n (by omega)).1,
   (locate_fst_bounds newest oldest d 1 n (by omega)).2⟩

/-- Witness for C6 at `n = 5`: the produced boundary lies in `[1, 6]`. -/
theorem C6_witness :
    1 ≤ (locate (fun i => -i) (fun i => -i) (-3) 1 5).1 ∧
    (locate (fun i => -i) (fun i => -i) (-3) 1 5).1 ≤ 6 := by
  have h := C6_cursor_invariant (fun i => -i) (fun i => -i) (-3) 5 (by norm_num)
  exact ⟨h.2.1, by have := h.2.2; omega⟩

/-! ## Detail fetch, caching, and the pool -/

/-- C9: the detail fetch mutates only `content`, and exactly once on the
success path: on every exit path `title`, `url` and `published` are the
values the listing parser created, and `content` is the fetched text on
success and the original (empty) value on failure. -/
theorem C9_detail_frame (detail : Article → Except Err String) (a : Article) :
    (get_article_detail detail a).title = a.title ∧
    (get_article_detail detail a).url = a.url ∧
    (get_article_detail detail a).published = a.published ∧
    (match detail a with
     | .ok c => (get_article_detail detail a).content = c
     | .error _ => (get_article_detail detail a).content = a.content) := by
  unfold get_article_detail
  cases detail a <;> simp

/-- C10: total-page discovery is cached and idempotent.  `total_page`
starts at the `-1` sentinel; the first call performs the navigation and
stores the parsed page count, and every later call (whatever its probe
would return) performs no navigation and leaves the state unchanged. -/
theorem C10_total_page_cached (n : Nat) (probe : Except Err Nat) :
    initState.total_page = -1 ∧
    get_total_page (.ok n) initState = .ok (⟨(n : Int)⟩, true) ∧
    get_total_page probe ⟨(n : Int)⟩ = .ok (⟨(n : Int)⟩, false) := by
  refine ⟨rfl, rfl, ?_⟩
  unfold get_total_page
  rw [if_neg (by simp only []; omega)]

/-- C3: the detail fetch never raises to its caller — `get_article_detail`
is a total function into `Article`: on success it returns the item with
`content` populated, on any failure of the abstracted try-body it returns
the original item unchanged; hence mapping a batch through it yields
every item of the batch. -/
theorem C3_detail_nonfatal (detail : Article → Except Err String)
    (batch : List Article) :
    (batch.map (get_article_detail detail)).length = batch.length ∧
    ∀ a ∈ batch,
      (∀ er, detail a = .error er → get_article_detail detail a = a) ∧
      (∀ c, detail a = .ok c →
        get_article_detail detail a = { a with content := c }) := by
  refine ⟨by simp, ?_⟩
  intro a _
  constructor
  · intro er h
    unfold get_article_detail
    rw [h]
  · intro c h
    unfold get_article_detail
    rw [h]

/-- A concrete detail effect that fails (with a timeout) exactly on the
item titled "bad" and succeeds elsewhere. -/
def cDetail : Article → Except Err String :=
  fun a => if a.title = "bad" then .error .timeout else .ok "body"

/-- A concrete item whose detail fetch succeeds. -/
def cGood : Article := ⟨"good", "u1", 0, ""⟩

/-- A concrete item whose detail fetch fails. -/
def cBad : Article := ⟨"bad", "u2", 0, ""⟩

/-- Witness for C3: in the two-item batch whose second item's detail
fetch fails, the batch still yields both items and the failing one is
returned unchanged (content still empty). -/
theorem C3_witness :
    ([cGood, cBad].map (get_article_detail cDetail)).length = 2 ∧
    get_article_detail cDetail cBad = cBad := by
  constructor
  · exact (C3_detail_nonfatal cDetail [cGood, cBad]).1
  · exact ((C3_detail_nonfatal cDetail [cGood, cBad]).2 cBad (by simp)).1
      .timeout rfl

instance : Inhabited Article := ⟨⟨"", "", 0, ""⟩⟩

/-- Helper: a `filterMap` that always fires is a `map`. -/
theorem filterMap_eq_map_of_eq_some {α β : Type} (l : List α) (f : α → Option β)
    (g : α → β) (h : ∀ x ∈ l, f x = some (g x)) : l.filterMap f = l.map g := by
  induction l with
  | nil => rfl
  | cons a t ih =>
    rw [List.filterMap_cons, h a (by simp), List.map_cons,
      ih (fun x hx => h x (by simp [hx]))]

/-- Helper: reading a list back through indexed `getD` lookups over
`range` reproduces `map`. -/
theorem map_range_getD {α β : Type} (g : α → β) (xs : List α) (d : α) :
    (List.range xs.length).map (fun i => g (xs.getD i d)) = xs.map g := by
  induction xs with
  | nil => rfl
  | cons a t ih =>
    rw [List.length_cons, List.range_succ_eq_map, List.map_cons, List.map_map]
    simp only [List.getD_cons_zero, Function.comp_def, Nat.succ_eq_add_one,
      List.getD_cons_succ]
    rw [ih, List.map_cons]

/-- Helper: in the completion stream, the first completion carrying
submission index `i` is `(i, g xs[i])`, whenever index `i` occurs in the
schedule and is in range. -/
theorem find_poolCompletions (g : Article → Article) (xs : List Article)
    (sched : List Nat) (i : Nat) (a : Article) (ha : xs.get? i = some a)
    (hi : i ∈ sched) :
    (poolCompletions g xs sched).find? (fun c => c.1 == i) = some (i, g a) := by
  induction sched with
  | nil => simp at hi
  | cons j rest ih =>
    unfold poolCompletions at ih ⊢
    rw [List.filterMap_cons]
    by_cases hj : j = i
    · subst hj
      rw [ha]
      exact List.find?_cons_of_pos _ (by simp)
    · have hi' : i ∈ rest := by
        rcases List.mem_cons.mp hi with h | h
        · exact absurd h.symm hj
        · exact h
      cases hx : xs.get? j with
      | none => exact ih hi'
      | some b =>
        simp only [Option.map_some']
        rw [List.find?_cons_of_neg _ (by simp [hj])]
        exact ih hi'

/-- C4: the pool delivers completed items in exactly the order their
source items were submitted.  For every batch `xs`, every detail effect
and every finish order `sched` in which each submitted index completes,
the pool's output equals the plain in-order map of `get_article_detail`
over the batch — concurrency never reorders the yielded items. -/
theorem C4_pool_preserves_order (detail : Article → Except Err String)
    (xs : List Article) (sched : List Nat)
    (h : ∀ i, i < xs.length → i ∈ sched) :
    poolMap (get_article_detail detail) xs sched =
      xs.map (get_article_detail detail) := by
  unfold poolMap poolOutput
  rw [filterMap_eq_map_of_eq_some (List.range xs.length) _
    (fun i => get_article_detail detail (xs.getD i default)) ?_]
  · exact map_range_getD (get_article_detail detail) xs default
  · intro i hi
    have hi' : i < xs.length := List.mem_range.mp hi
    have ha : xs.get? i = some (xs.getD i default) := by
      rw [List.get?_eq_getElem?, List.getElem?_eq_getElem hi',
        List.getD_eq_getElem?_getD, List.getElem?_eq_getElem hi']
      rfl
    rw [find_poolCompletions (get_article_detail detail) xs sched i
      (xs.getD i default) ha (h i hi')]
    rfl

/-- Four concrete submitted items A, B, C, D. -/
def cBatch : List Article :=
  [⟨"A", "uA", 0, ""⟩, ⟨"B", "uB", 0, ""⟩, ⟨"C", "uC", 0, ""⟩, ⟨"D", "uD", 0, ""⟩]

/-- Witness for C4, mirroring the spec's example: items `[A,B,C,D]` with
`C` completing first and `A` last (finish order C, D, B, A) are still
yielded in submission order `[A,B,C,D]`. -/
theorem C4_witness :
    poolMap (get_article_detail (fun _ => .ok "body")) cBatch [2, 3, 1, 0] =
      cBatch.map (get_article_detail (fun _ => .ok "body")) :=
  C4_pool_preserves_order (fun _ => .ok "body") cBatch [2, 3, 1, 0]
    (by decide)

/-- The two renderings of the loop of lines 110–122 agree: when every
page in `1..n` probes successfully to the ranges `newest`/`oldest`, the
fallible search returns exactly the pure search's final cursor pair. -/
theorem locateE_eq_locate (pages : Int → List Article) (newest oldest : Int → Int)
    (d n : Int) (s e : Int) (hs : 1 ≤ s) (he : e ≤ n)
    (h : ∀ i, 1 ≤ i → i ≤ n → get_date_range (pages i) = .ok (newest i, oldest i)) :
    locateE pages d s e = .ok (locate newest oldest d s e) := by
  rw [locateE, locate]
  split
  case isTrue hse =>
    rw [h ((s + e) / 2) (by omega) (by omega)]
    dsimp only
    split_ifs with h1 h2
    · exact locateE_eq_locate pages newest oldest d n s ((s + e) / 2 - 1) hs
        (by omega) h
    · exact locateE_eq_locate pages newest oldest d n ((s + e) / 2 + 1) e
        (by omega) he h
    · exact locateE_eq_locate pages newest oldest d n s ((s + e) / 2 - 1) hs
        (by omega) h
  case isFalse hse => rfl
termination_by (e + 1 - s).toNat
decreasing_by all_goals omega

/-! ## The orchestrator run -/

/-- C7: deriving a page's date range from an empty item sequence fails
(the indexing error, the spec's `EmptyPageError`) rather than silently
defaulting, and any error raised while probing a page during the binary
search makes the whole run fail with that error, for every detail
fetcher and schedule alike — so no detail fetch is attempted or can
influence the outcome. -/
theorem C7_empty_page_aborts_run :
    get_date_range [] = .error Err.emptyPage ∧
    ∀ (pages : Int → List Article) (d n : Int) (er : Err),
      locateE pages d 1 n = .error er →
      ∀ (detail : Article → Except Err String) (sched : Int → List Nat),
        get_articles_with_date pages detail sched n d = .error er := by
  refine ⟨rfl, ?_⟩
  intro pages d n er h detail sched
  unfold get_articles_with_date
  rw [h]
  rfl

/-- A source whose every listing page is empty. -/
def cEmptyPages : Int → List Article := fun _ => []

/-- A concrete per-page finish order for singleton pages. -/
def cSched : Int → List Nat := fun _ => [0]

/-- Witness for C7: with one listing page that is empty, the probe of the
binary search raises the empty-page error and the run fails with it. -/
theorem C7_witness :
    get_articles_with_date cEmptyPages cDetail cSched 1 0 = .error Err.emptyPage := by
  have h : locateE cEmptyPages 0 1 1 = .error Err.emptyPage := by
    rw [locateE]
    norm_num [cEmptyPages, get_date_range]
  exact C7_empty_page_aborts_run.2 cEmptyPages 0 1 Err.emptyPage h cDetail cSched

/-- C8 counterexample: with `total_page = 0` (a source with zero items)
the run does not fail at all — there is no `EmptySourceError` anywhere in
the code — it silently yields no items. -/
theorem C8_counterexample :
    get_articles_with_date cEmptyPages cDetail cSched 0 0 = .ok [] := by
  have h : locateE cEmptyPages 0 1 0 = .ok (1, 0) := by
    rw [locateE]
    norm_num
  unfold get_articles_with_date
  rw [h]
  rfl

/-- C8 amended: when `total_page` is 0, the binary-search loop body never
runs (the search exits immediately with `(start, end) = (1, 0)`), the
fetch window degenerates to the empty page range `(1, 0)`, and the run
silently yields no items without raising — for every source, detail
fetcher, schedule and target date. -/
theorem C8_zero_pages_silent (pages : Int → List Article)
    (detail : Article → Except Err String) (sched : Int → List Nat) (d : Int) :
    locateE pages d 1 0 = .ok (1, 0) ∧
    get_articles_with_date pages detail sched 0 d = .ok [] := by
  have h : locateE pages d 1 0 = .ok (1, 0) := by
    rw [locateE]
    norm_num
  refine ⟨h, ?_⟩
  unfold get_articles_with_date
  rw [h]
  rfl

/-- A source with five listing pages, page `i` carrying exactly one
article published on day `-i` (Unix seconds `-(i * 86400)`). -/
def cPages : Int → List Article :=
  fun i => [{ title := "t", url := "u", published := -(i * 86400), content := "" }]

/-- A detail effect that always succeeds with body "body". -/
def cDetailOk : Article → Except Err String := fun _ => .ok "body"

/-- C1 (failing input for the claimed window): with five pages and the
target day contained only in page 1, the search exits with
`(start, end) = (1, 0)` so the boundary is `p = 1`; lines 127–128 then
compute the fetch window `(1, 1)` — `end_page = end + 1 = p`, not the
claimed `min(totalPages, p + 1) = 2` — and the run consequently yields
only page 1's article, never fetching page 2. -/
theorem C1_window_short_by_one :
    locate (fun i => -i) (fun i => -i) (-1) 1 5 = (1, 0) ∧
    fetch_window (1, 0) 5 = (1, 1) ∧
    get_articles_with_date cPages cDetailOk cSched 5 (-1) =
      .ok [{ title := "t", url := "u", published := -86400, content := "body" }] := by
  have h3 : get_date_range (cPages 3) = .ok (-3, -3) := rfl
  have h1 : get_date_range (cPages 1) = .ok (-1, -1) := rfl
  have hloc : locateE cPages (-1) 1 5 = .ok (1, 0) := by
    rw [locateE]
    norm_num [h3]
    rw [locateE]
    norm_num [h1]
    rw [locateE]
    norm_num
  refine ⟨?_, rfl, ?_⟩
  · rw [locate]
    norm_num
    rw [locate]
    norm_num
    rw [locate]
    norm_num
  · unfold get_articles_with_date
    rw [hloc]
    rfl

end FFN
